import Mathlib

/-!
# Verification of the spectral heart-rate estimator

Shallow embedding of `src/signal_processing/ecg_spectral.py`
(`spectral_heart_rate` and `_check_feasibility`) from the repository
`lmsg1/cinc2020-ATI-CNN-`, together with theorems settling the claims of
the natural-language specification.

Modelling conventions:
* Real-valued samples, frequencies and powers are rationals (`ℚ`); the
  Python floats `50/60` and `100/60` become the exact rationals `50/60`
  and `100/60`.
* A multi-lead signal / PSD array of shape `(c, n)` is a `List (List ℚ)`
  in lead-first order (one inner list per lead).
* Python exceptions become `Except SpectralError`; numpy's silent
  production of a non-finite float (`nan` from `0/0` or a mean over it,
  `inf` from `x/0`) is modelled by `Option ℚ` with `none` standing for a
  non-finite value.  (`1000 / inf = 0` would need a finer model, but an
  infinite per-lead centroid requires negative power values, which a PSD
  never contains.)
* `np.argmax` returns the index of the first occurrence of the maximum
  and raises `ValueError` on an empty reduction axis; `np.ndarray.T` is
  the matrix transpose.
* The external PSD estimator `scipy.signal.welch` is, exactly as in the
  spec (§1, §6), an opaque collaborator: `spectral_heart_rate` takes it
  as the function argument `estimate_psd`.
-/

set_option maxRecDepth 8000

namespace EcgSpectral

/-- Kinds of Python exceptions the estimator can surface, plus the two
error kinds named by the specification (`emptyBand`, `degenerateSpectrum`)
so that statements about them can be written; the translated code itself
never produces those two. -/
inductive SpectralError where
  | assertionError (msg : String)
  | valueError (msg : String)
  | indexError
  | emptyBand
  | degenerateSpectrum
deriving DecidableEq

/-- `_check_feasibility(freqs)` translated from the source:
`_f = np.sort(_f[_f>0])` then `(_f[0] <= 50/60) and (_f[-1] >= 100/60)`.
Indexing `_f[0]` on an empty array raises `IndexError`, hence the
`Except`: `.error .indexError` models that crash. -/
def _check_feasibility (freqs : List ℚ) : Except SpectralError Bool :=
  match (freqs.filter (fun x => 0 < x)).insertionSort (· ≤ ·) with
  | [] => .error .indexError
  | x :: xs =>
      .ok (decide (x ≤ 50/60) && decide (100/60 ≤ (x :: xs).getLast (List.cons_ne_nil x xs)))

/-- Modelled from the spec: the configuration default `cfg.FeatureCfg.spectral_hr_fs_band`
is not part of the sources under review; the spec (§6) says only that it is
"a default frequency band (two positive reals, Hz)".  The concrete value is
irrelevant to every claim; any two positive reals serve. -/
def spectral_hr_fs_band : List ℚ := [1/2, 4]

/-- `fs_band = hr_fs_band or FeatureCfg.spectral_hr_fs_band`: Python `or`
falls back to the default when `hr_fs_band` is `None` *or* an empty
(falsy) sequence. -/
def resolveBand : Option (List ℚ) → List ℚ
  | none => spectral_hr_fs_band
  | some [] => spectral_hr_fs_band
  | some (b :: bs) => b :: bs

/-- `sorted(fs_band)` (Python's stable ascending sort). -/
def sortedBand (fs_band : List ℚ) : List ℚ :=
  fs_band.insertionSort (· ≤ ·)

/-- `np.where((lo <= freqs) & (freqs <= hi))[0]`: the ascending list of
indices of `freqs` lying in the closed interval `[lo, hi]`. -/
def indsOfInterest (freqs : List ℚ) (lo hi : ℚ) : List ℕ :=
  (List.range freqs.length).filter fun i => lo ≤ freqs.getD i 0 ∧ freqs.getD i 0 ≤ hi

/-- Fancy indexing `xs[inds]`. -/
def selectInds (xs : List ℚ) (inds : List ℕ) : List ℚ :=
  inds.map fun i => xs.getD i 0

/-- `np.argmax(row)` for one row: the index of the *first* occurrence of
the maximum (numpy's documented tie-break); `none` when the row is empty
(numpy raises `ValueError` then). -/
def argmaxFirst : List ℚ → Option ℕ
  | [] => none
  | x :: t => some ((x :: t).indexOf (t.foldl max x))

/-- The neighbourhood radius `n_nbh = 1` of the source. -/
def n_nbh : ℕ := 1

/-- One row of `psd_of_interest * psd_mask`: the source sets
`psd_mask[l, max(0, p - n_nbh) : min(m, p + n_nbh)] = 1` and multiplies, so
exactly the indices `i` with `max(0, p-1) ≤ i < min(m, p+1)` survive
(the Python slice is half-open; `p - n_nbh` on `ℕ` is already
`max(0, p - n_nbh)`). -/
def maskRow (row : List ℚ) (p : ℕ) : List ℚ :=
  (List.range row.length).map fun i =>
    if p - n_nbh ≤ i ∧ i < min row.length (p + n_nbh) then row.getD i 0 else 0

/-- `np.dot` of two equally long vectors. -/
def dotQ (xs ys : List ℚ) : ℚ :=
  ((xs.zip ys).map fun p => p.1 * p.2).sum

/-- One component of `np.dot(psd_of_interest, freqs_of_interest) / np.sum(psd_of_interest, axis=-1)`:
numpy evaluates `0/0` to `nan` and `d/0` to `±inf` — both non-finite,
modelled by `none`. -/
def leadCentroid (row fr : List ℚ) : Option ℚ :=
  if row.sum = 0 then none else some (dotQ row fr / row.sum)

/-- `np.mean` over the per-lead values: non-finite if any entry is
non-finite, or if there are no leads (`mean` of an empty array is `nan`). -/
def meanOpt (xs : List (Option ℚ)) : Option ℚ :=
  match xs.mapM id with
  | none => none
  | some ys => if ys.length = 0 then none else some (ys.sum / (ys.length : ℚ))

/-- Python's `str.lower()`: lower-case each character.  (Equivalent to
`String.toLower`, but defined directly on the character list so that it
evaluates by `rfl`/`decide` on literals.) -/
def pyLower (s : String) : String := ⟨s.data.map Char.toLower⟩

/-- The two alias lists of the `mode` dispatch in the source. -/
def hrModes : List String := ["hr", "heart_rate"]

/-- See `hrModes`. -/
def rrModes : List String := ["rr", "rr_interval"]

/-- The final `mode` dispatch of the source: `60 * ret_val` for heart-rate
mode, `1000 / ret_val` for rr mode, and — note — `ret_val` *unchanged*
when `mode.lower()` matches neither branch (there is no `else` clause).
`1000 / x` at `x = 0` is numpy's `inf`, i.e. `none`. -/
def applyMode (mode : String) (v : Option ℚ) : Option ℚ :=
  if pyLower mode ∈ hrModes then v.map fun x => 60 * x
  else if pyLower mode ∈ rrModes then
    match v with
    | none => none
    | some x => if x = 0 then none else some (1000 / x)
  else v

/-- Lines 70–104 of the source: everything `spectral_heart_rate` does with
the PSD output `(freqs, psd)` up to (and excluding) the `mode` conversion:
feasibility check, band resolution and its `assert`, restriction to the
band of interest, per-lead argmax, neighbourhood masking, per-lead weighted
centroid, and the mean across leads. -/
def meanFreq (freqs : List ℚ) (psd : List (List ℚ)) (hr_fs_band : Option (List ℚ)) :
    Except SpectralError (Option ℚ) :=
  match _check_feasibility freqs with
  | .error e => .error e
  | .ok feasible =>
    if feasible = false then
      .error (.valueError "it is not feasible to compute heart rate in frequency domain")
    else
      let fs_band := resolveBand hr_fs_band
      if fs_band.length < 2 then
        .error (.assertionError "frequency band of heart rate should at least has 2 bounds")
      else
        let lo := (sortedBand fs_band).headD 0
        let hi := (sortedBand fs_band).getLastD 0
        let inds := indsOfInterest freqs lo hi
        let freqs_oi := selectInds freqs inds
        let psd_oi := psd.map fun row => selectInds row inds
        match psd_oi.mapM argmaxFirst with
        | none => .error (.valueError "attempt to get argmax of an empty sequence")
        | some peak_inds =>
            let masked := (psd_oi.zip peak_inds).map fun pr => maskRow pr.1 pr.2
            .ok (meanOpt (masked.map fun row => leadCentroid row freqs_oi))

/-- numpy's `.T` on a 2-D array, for the rectangular arrays the estimator
receives: entry `(j, i)` of the result is entry `(i, j)` of the input. -/
def npTranspose (m : List (List ℚ)) : List (List ℚ) :=
  (List.range (m.headD []).length).map fun j => m.map fun row => row.getD j 0

/-- The accepted `sig_fmt` strings of the `assert` on line 59. -/
def validFmts : List String := ["channel_first", "lead_first", "channel_last", "lead_last"]

/-- The lead-last tags: the branch `s = filtered_sig.T`. -/
def lastFmts : List String := ["channel_last", "lead_last"]

/-- `spectral_heart_rate` translated from the source.  `estimate_psd`
stands for `scipy.signal.welch` — an external collaborator per the spec
(§1, §6): given the lead-first signal and `fs` it returns the shared
frequency axis and the per-lead PSD rows.  The `verbose` printing of the
source is pure logging and is omitted (spec §4.2: it must not alter the
numeric result). -/
def spectral_heart_rate
    (estimate_psd : List (List ℚ) → ℚ → List ℚ × List (List ℚ))
    (filtered_sig : List (List ℚ)) (fs : ℚ)
    (hr_fs_band : Option (List ℚ)) (sig_fmt : String) (mode : String) :
    Except SpectralError (Option ℚ) :=
  if pyLower sig_fmt ∉ validFmts then .error (.assertionError "")
  else
    let s := if pyLower sig_fmt ∈ lastFmts then npTranspose filtered_sig else filtered_sig
    let fp := estimate_psd s fs
    match meanFreq fp.1 fp.2 hr_fs_band with
    | .error e => .error e
    | .ok v => .ok (applyMode mode v)

/-! ## Spec-side definitions

These two definitions follow the *specification's words* (not the source);
they exist to be compared with the source-translated definitions above. -/

/-- Following the spec's words (§4.2 step 6): "a symmetric neighborhood
mask around each lead's peak index: one bin on each side (neighborhood
radius = 1), clipped to the band-of-interest's valid index range" — i.e.
the kept bins are `p-1`, `p` and `p+1`, intersected with `[0, m)`. -/
def maskRowSpec (row : List ℚ) (p : ℕ) : List ℚ :=
  (List.range row.length).map fun i =>
    if p - 1 ≤ i ∧ i ≤ p + 1 then row.getD i 0 else 0

/-- Following the spec's words (§4.1): "Feasible iff the smallest positive
frequency present is ≤ 50/60 Hz AND the largest frequency present is
≥ 100/60 Hz."  The smallest positive frequency is ≤ `50/60` exactly when
*some* positive frequency is ≤ `50/60`, and the largest is ≥ `100/60`
exactly when some frequency is ≥ `100/60` (such a frequency is positive),
so the condition is stated with existentials. -/
def specFeasible (freqs : List ℚ) : Prop :=
  (∃ x ∈ freqs, 0 < x ∧ x ≤ 50/60) ∧ ∃ x ∈ freqs, 100/60 ≤ x

instance (freqs : List ℚ) : Decidable (specFeasible freqs) := by
  unfold specFeasible; infer_instance

/-! ## General list lemmas -/

lemma sorted_le_getLast {l : List ℚ} (hs : List.Sorted (· ≤ ·) l) {y : ℚ}
    (hy : y ∈ l) (hne : l ≠ []) : y ≤ l.getLast hne := by
  induction l with
  | nil => exact absurd rfl hne
  | cons a t ih =>
    cases t with
    | nil => simp at hy; simp [List.getLast, hy]
    | cons b u =>
      rw [List.getLast_cons (List.cons_ne_nil b u)]
      rcases List.mem_cons.mp hy with h | h
      · subst h
        exact le_trans (List.rel_of_sorted_cons hs _ (List.getLast_mem _))
          (le_refl _)
      · exact ih hs.of_cons h (List.cons_ne_nil b u)

lemma sorted_head_le {a : ℚ} {t : List ℚ} (hs : List.Sorted (· ≤ ·) (a :: t))
    {y : ℚ} (hy : y ∈ a :: t) : a ≤ y := by
  rcases List.mem_cons.mp hy with h | h
  · exact h ▸ le_refl a
  · exact List.rel_of_sorted_cons hs _ h

lemma init_le_foldl_max : ∀ (t : List ℚ) (x : ℚ), x ≤ t.foldl max x := by
  intro t
  induction t with
  | nil => intro x; exact le_refl x
  | cons y ys ih =>
    intro x
    exact le_trans (le_max_left x y) (ih (max x y))

lemma foldl_max_mem : ∀ (t : List ℚ) (x : ℚ), t.foldl max x ∈ x :: t := by
  intro t
  induction t with
  | nil => intro x; simp
  | cons y ys ih =>
    intro x
    show List.foldl max (max x y) ys ∈ x :: y :: ys
    have h := ih (max x y)
    rcases List.mem_cons.mp h with h | h
    · rw [h]
      rcases max_choice x y with hm | hm <;> rw [hm] <;> simp
    · simp [h]

lemma le_foldl_max : ∀ (t : List ℚ) (x y : ℚ), y ∈ x :: t → y ≤ t.foldl max x := by
  intro t
  induction t with
  | nil =>
    intro x y hy
    simp at hy
    simp [hy]
  | cons z zs ih =>
    intro x y hy
    rcases List.mem_cons.mp hy with h | h
    · subst h
      exact le_trans (le_max_left y z) (init_le_foldl_max zs (max y z))
    · rcases List.mem_cons.mp h with h | h
      · subst h
        exact le_trans (le_max_right x y) (init_le_foldl_max zs (max x y))
      · exact ih (max x z) y (List.mem_cons_of_mem _ h)

lemma getD_mem_of_lt {α : Type} {l : List α} {i : ℕ} (h : i < l.length) (d : α) :
    l.getD i d ∈ l := by
  rw [List.getD_eq_getElem l d h]
  exact List.getElem_mem h

lemma getD_map_lt {α β : Type} (f : α → β) (l : List α) (d : α) (e : β) :
    ∀ (i : ℕ), i < l.length → (l.map f).getD i e = f (l.getD i d) := by
  induction l with
  | nil => intro i h; simp at h
  | cons x t ih =>
    intro i h
    cases i with
    | zero => simp
    | succ j =>
      simp only [List.map_cons, List.getD_cons_succ]
      exact ih j (by simpa using h)

lemma range_map_getD {α : Type} (l : List α) (d : α) :
    (List.range l.length).map (fun j => l.getD j d) = l := by
  induction l with
  | nil => simp
  | cons x t ih =>
    rw [List.length_cons, List.range_succ_eq_map, List.map_cons, List.map_map]
    have hcomp : ((fun j => (x :: t).getD j d) ∘ Nat.succ) = fun j => t.getD j d := by
      funext j; simp
    rw [hcomp, ih]
    simp

/-! ## Feasibility lemmas -/

lemma check_feasibility_ok_true_iff (freqs : List ℚ) :
    _check_feasibility freqs = .ok true ↔ specFeasible freqs := by
  unfold _check_feasibility
  have hperm : List.Perm ((freqs.filter (fun x => 0 < x)).insertionSort (· ≤ ·))
      (freqs.filter (fun x => 0 < x)) := List.perm_insertionSort _ _
  have hsort : List.Sorted (· ≤ ·) ((freqs.filter (fun x => 0 < x)).insertionSort (· ≤ ·)) :=
    List.sorted_insertionSort _ _
  cases hS : (freqs.filter (fun x => 0 < x)).insertionSort (· ≤ ·)
  · rw [hS] at hperm
    have hfil : freqs.filter (fun x => 0 < x) = [] := hperm.symm.eq_nil
    simp only [reduceCtorEq, false_iff]
    rintro ⟨⟨a, ha, ha0, _⟩, -⟩
    have : a ∈ freqs.filter (fun x => 0 < x) :=
      List.mem_filter.mpr ⟨ha, by simpa using ha0⟩
    rw [hfil] at this
    exact absurd this (List.not_mem_nil a)
  · rename_i x xs
    rw [hS] at hperm hsort
    simp only [Except.ok.injEq, Bool.and_eq_true, decide_eq_true_eq]
    constructor
    · rintro ⟨h1, h2⟩
      have hxmem : x ∈ freqs.filter (fun x => 0 < x) := hperm.mem_iff.mp (by simp)
      have hx := List.mem_filter.mp hxmem
      have hlmem : (x :: xs).getLast (List.cons_ne_nil x xs) ∈ freqs.filter (fun x => 0 < x) :=
        hperm.mem_iff.mp (List.getLast_mem _)
      have hl := List.mem_filter.mp hlmem
      exact ⟨⟨x, hx.1, by simpa using hx.2, h1⟩,
        ⟨(x :: xs).getLast (List.cons_ne_nil x xs), hl.1, h2⟩⟩
    · rintro ⟨⟨a, ha, ha0, ha56⟩, ⟨b, hb, hb53⟩⟩
      have hamem : a ∈ x :: xs :=
        hperm.mem_iff.mpr (List.mem_filter.mpr ⟨ha, by simpa using ha0⟩)
      have hb0 : (0 : ℚ) < b := lt_of_lt_of_le (by norm_num) hb53
      have hbmem : b ∈ x :: xs :=
        hperm.mem_iff.mpr (List.mem_filter.mpr ⟨hb, by simpa using hb0⟩)
      refine ⟨le_trans (sorted_head_le hsort hamem) ha56, ?_⟩
      exact le_trans hb53 (sorted_le_getLast hsort hbmem (List.cons_ne_nil x xs))

lemma check_feasibility_indexError_iff (freqs : List ℚ) :
    _check_feasibility freqs = .error .indexError ↔ ∀ x ∈ freqs, x ≤ 0 := by
  unfold _check_feasibility
  have hperm : List.Perm ((freqs.filter (fun x => 0 < x)).insertionSort (· ≤ ·))
      (freqs.filter (fun x => 0 < x)) := List.perm_insertionSort _ _
  cases hS : (freqs.filter (fun x => 0 < x)).insertionSort (· ≤ ·)
  · rw [hS] at hperm
    have hfil : freqs.filter (fun x => 0 < x) = [] := hperm.symm.eq_nil
    simp only [true_iff]
    intro y hy
    by_contra hpos
    have : y ∈ freqs.filter (fun x => 0 < x) :=
      List.mem_filter.mpr ⟨hy, by simpa using lt_of_not_ge hpos⟩
    rw [hfil] at this
    exact absurd this (List.not_mem_nil y)
  · rename_i x xs
    rw [hS] at hperm
    simp only [reduceCtorEq, false_iff]
    intro hall
    have hxmem : x ∈ freqs.filter (fun x => 0 < x) := hperm.mem_iff.mp (by simp)
    have hx := List.mem_filter.mp hxmem
    have : (0 : ℚ) < x := by simpa using hx.2
    exact absurd (hall x hx.1) (not_le.mpr this)

lemma check_feasibility_ok_of_pos (freqs : List ℚ) (h : ∃ x ∈ freqs, 0 < x) :
    ∃ b, _check_feasibility freqs = .ok b := by
  unfold _check_feasibility
  have hperm : List.Perm ((freqs.filter (fun x => 0 < x)).insertionSort (· ≤ ·))
      (freqs.filter (fun x => 0 < x)) := List.perm_insertionSort _ _
  cases hS : (freqs.filter (fun x => 0 < x)).insertionSort (· ≤ ·)
  · rw [hS] at hperm
    have hfil : freqs.filter (fun x => 0 < x) = [] := hperm.symm.eq_nil
    rcases h with ⟨a, ha, ha0⟩
    have : a ∈ freqs.filter (fun x => 0 < x) :=
      List.mem_filter.mpr ⟨ha, by simpa using ha0⟩
    rw [hfil] at this
    exact absurd this (List.not_mem_nil a)
  · exact ⟨_, rfl⟩

/-! ## Argmax lemmas -/

lemma argmaxFirst_spec (xs : List ℚ) (i : ℕ) (h : argmaxFirst xs = some i) :
    i < xs.length ∧ (∀ j, j < xs.length → xs.getD j 0 ≤ xs.getD i 0) ∧
    ∀ j, j < i → xs.getD j 0 < xs.getD i 0 := by
  cases xs with
  | nil => simp [argmaxFirst] at h
  | cons x t =>
    simp only [argmaxFirst, Option.some.injEq] at h
    set M := t.foldl max x with hM
    have hmem : M ∈ x :: t := foldl_max_mem t x
    have hle : ∀ y ∈ x :: t, y ≤ M := fun y hy => le_foldl_max t x y hy
    have hilt : i < (x :: t).length := h ▸ List.indexOf_lt_length.mpr hmem
    have hgetI : (x :: t).getD i 0 = M := by
      rw [List.getD_eq_getElem _ _ hilt]
      have := List.getElem_indexOf (l := x :: t) (a := M) (h ▸ hilt)
      simp only [← h] at this ⊢
      exact this
    refine ⟨hilt, ?_, ?_⟩
    · intro j hj
      rw [hgetI, List.getD_eq_getElem _ _ hj]
      exact hle _ (List.getElem_mem hj)
    · intro j hj
      have hjlt : j < (x :: t).length := lt_trans hj hilt
      have hne : (x :: t).getD j 0 ≠ M := by
        rw [List.getD_eq_getElem _ _ hjlt]
        have hfi : j < (x :: t).findIdx (· == M) := by
          have heq : (x :: t).findIdx (· == M) = (x :: t).indexOf M := rfl
          rw [heq, h]
          exact hj
        have := List.not_of_lt_findIdx hfi
        simpa using this
      rw [hgetI]
      exact lt_of_le_of_ne (by
        rw [List.getD_eq_getElem _ _ hjlt]
        exact hle _ (List.getElem_mem hjlt)) hne

lemma argmaxFirst_isSome (xs : List ℚ) (h : xs ≠ []) : ∃ i, argmaxFirst xs = some i := by
  cases xs with
  | nil => exact absurd rfl h
  | cons x t => exact ⟨_, rfl⟩

/-! ## Transpose lemmas -/

lemma npTranspose_involution (m : List (List ℚ)) (n : ℕ) (hn : 0 < n)
    (hrows : ∀ row ∈ m, row.length = n) : npTranspose (npTranspose m) = m := by
  cases m with
  | nil => rfl
  | cons r rs =>
    obtain ⟨k, rfl⟩ : ∃ k, n = k + 1 := ⟨n - 1, (Nat.succ_pred_eq_of_pos hn).symm⟩
    have hr : r.length = k + 1 := hrows r (by simp)
    have hA : npTranspose (r :: rs)
        = (List.range (k + 1)).map (fun j => (r :: rs).map fun row => row.getD j 0) := by
      unfold npTranspose
      rw [show ((r :: rs).headD []) = r from rfl, hr]
    rw [hA]
    unfold npTranspose
    have hhead : ((((List.range (k + 1)).map
        (fun j => (r :: rs).map fun row => row.getD j 0)).headD []).length)
        = (r :: rs).length := by
      rw [List.range_succ_eq_map, List.map_cons, List.headD_cons, List.length_map]
    rw [hhead]
    conv_rhs => rw [← range_map_getD (r :: rs) []]
    apply List.map_congr_left
    intro i hi
    have hic : i < (r :: rs).length := List.mem_range.mp hi
    rw [List.map_map]
    have hcomp : ((fun arow => arow.getD i 0) ∘ (fun j => (r :: rs).map fun row => row.getD j 0))
        = fun j => ((r :: rs).map fun row => row.getD j 0).getD i 0 := rfl
    rw [hcomp]
    have hstep : ∀ j : ℕ, ((r :: rs).map fun row => row.getD j 0).getD i 0
        = ((r :: rs).getD i []).getD j 0 :=
      fun j => getD_map_lt (fun row => row.getD j 0) (r :: rs) [] 0 i hic
    simp only [hstep]
    have hrowlen : ((r :: rs).getD i []).length = k + 1 := hrows _ (getD_mem_of_lt hic [])
    rw [← hrowlen]
    exact range_map_getD _ 0

/-! ## Structural lemmas about the estimator -/

lemma shr_invalid_fmt (estimate_psd : List (List ℚ) → ℚ → List ℚ × List (List ℚ))
    (sig : List (List ℚ)) (fs : ℚ) (band : Option (List ℚ)) (fmt mode : String)
    (hfmt : pyLower fmt ∉ validFmts) :
    spectral_heart_rate estimate_psd sig fs band fmt mode = .error (.assertionError "") := by
  unfold spectral_heart_rate
  rw [if_pos hfmt]

lemma shr_valid_fmt (estimate_psd : List (List ℚ) → ℚ → List ℚ × List (List ℚ))
    (sig : List (List ℚ)) (fs : ℚ) (band : Option (List ℚ)) (fmt mode : String)
    (hfmt : pyLower fmt ∈ validFmts) :
    spectral_heart_rate estimate_psd sig fs band fmt mode
      = match meanFreq (estimate_psd (if pyLower fmt ∈ lastFmts then npTranspose sig else sig) fs).1
              (estimate_psd (if pyLower fmt ∈ lastFmts then npTranspose sig else sig) fs).2 band with
        | .error e => .error e
        | .ok v => .ok (applyMode mode v) := by
  unfold spectral_heart_rate
  rw [if_neg (not_not_intro hfmt)]

lemma applyMode_hr {mode : String} (h : pyLower mode ∈ hrModes) (v : Option ℚ) :
    applyMode mode v = v.map fun x => 60 * x := by
  unfold applyMode
  rw [if_pos h]

lemma rr_not_hr {s : String} (h : s ∈ rrModes) : s ∉ hrModes := by
  rcases (by simpa [rrModes] using h : s = "rr" ∨ s = "rr_interval") with h | h <;>
    subst h <;> decide

lemma applyMode_rr {mode : String} (h : pyLower mode ∈ rrModes) (v : Option ℚ) :
    applyMode mode v
      = match v with
        | none => none
        | some x => if x = 0 then none else some (1000 / x) := by
  unfold applyMode
  rw [if_neg (rr_not_hr h), if_pos h]

lemma applyMode_other {mode : String} (h1 : pyLower mode ∉ hrModes)
    (h2 : pyLower mode ∉ rrModes) (v : Option ℚ) : applyMode mode v = v := by
  unfold applyMode
  rw [if_neg h1, if_neg h2]

lemma meanFreq_band_congr (freqs : List ℚ) (psd : List (List ℚ)) (b b' : List ℚ)
    (hb : 2 ≤ b.length) (hb' : 2 ≤ b'.length)
    (hlo : (sortedBand b).headD 0 = (sortedBand b').headD 0)
    (hhi : (sortedBand b).getLastD 0 = (sortedBand b').getLastD 0) :
    meanFreq freqs psd (some b) = meanFreq freqs psd (some b') := by
  cases b with
  | nil => simp at hb
  | cons b0 bs =>
    cases b' with
    | nil => simp at hb'
    | cons c0 cs =>
      unfold meanFreq
      cases _check_feasibility freqs with
      | error e => rfl
      | ok feasible =>
        cases feasible with
        | false => rfl
        | true =>
          simp only
          rw [if_neg (by simp : ¬ (true = false)), if_neg (by simp : ¬ (true = false))]
          rw [show resolveBand (some (b0 :: bs)) = b0 :: bs from rfl,
            show resolveBand (some (c0 :: cs)) = c0 :: cs from rfl]
          rw [if_neg (Nat.not_lt.mpr hb), if_neg (Nat.not_lt.mpr hb')]
          rw [hlo, hhi]

lemma meanFreq_feas_error (freqs : List ℚ) (psd : List (List ℚ)) (band : Option (List ℚ))
    (e : SpectralError) (h : _check_feasibility freqs = .error e) :
    meanFreq freqs psd band = .error e := by
  unfold meanFreq
  rw [h]

lemma meanFreq_infeasible (freqs : List ℚ) (psd : List (List ℚ)) (band : Option (List ℚ))
    (h : _check_feasibility freqs = .ok false) :
    meanFreq freqs psd band
      = .error (.valueError "it is not feasible to compute heart rate in frequency domain") := by
  unfold meanFreq
  rw [h]
  simp

lemma meanFreq_short_band (freqs : List ℚ) (psd : List (List ℚ)) (band : Option (List ℚ))
    (hf : _check_feasibility freqs = .ok true) (hb : (resolveBand band).length < 2) :
    meanFreq freqs psd band
      = .error (.assertionError "frequency band of heart rate should at least has 2 bounds") := by
  unfold meanFreq
  rw [hf]
  simp [hb]

lemma meanFreq_empty_inds (freqs : List ℚ) (psd : List (List ℚ)) (band : Option (List ℚ))
    (hf : _check_feasibility freqs = .ok true) (hb : ¬ (resolveBand band).length < 2)
    (hinds : indsOfInterest freqs ((sortedBand (resolveBand band)).headD 0)
      ((sortedBand (resolveBand band)).getLastD 0) = [])
    (hpsd : psd ≠ []) :
    meanFreq freqs psd band
      = .error (.valueError "attempt to get argmax of an empty sequence") := by
  unfold meanFreq
  rw [hf]
  simp only [if_neg (by simp : ¬ (true = false)), if_neg hb]
  rw [hinds]
  cases psd with
  | nil => exact absurd rfl hpsd
  | cons r rs => rfl

lemma shr_lead_first (freqs : List ℚ) (psd sig : List (List ℚ)) (fs : ℚ)
    (band : Option (List ℚ)) (mode : String) :
    spectral_heart_rate (fun _ _ => (freqs, psd)) sig fs band "lead_first" mode
      = match meanFreq freqs psd band with
        | .error e => .error e
        | .ok v => .ok (applyMode mode v) :=
  shr_valid_fmt (fun _ _ => (freqs, psd)) sig fs band "lead_first" mode (by decide)

/-! ## Claim theorems -/

/-- C1 (code_bug): the claim says step 6 keeps exactly the bins
`peak-1`, `peak`, `peak+1` (clipped).  The source's half-open slice
`max(0, p-1) : min(m, p+1)` keeps only `peak-1` and `peak`: on the
band-of-interest power row `[1, 5, 2]` with peak index `1`, the code
zeroes bin `2` although the spec's symmetric mask keeps it; in general the
bin at `peak+1` is *always* zeroed, even when it lies inside the valid
index range. -/
theorem mask_keeps_only_left_neighbor_and_peak :
    maskRow [1, 5, 2] 1 = [1, 5, 0] ∧ maskRowSpec [1, 5, 2] 1 = [1, 5, 2] ∧
    ∀ (row : List ℚ) (p : ℕ), p + 1 < row.length → (maskRow row p).getD (p + 1) 0 = 0 := by
  refine ⟨by with_unfolding_all decide, by with_unfolding_all decide, ?_⟩
  intro row p hp
  unfold maskRow
  have hlen : p + 1 < (List.range row.length).length := by simpa using hp
  rw [getD_map_lt _ (List.range row.length) 0 0 (p + 1) hlen]
  have hidx : (List.range row.length).getD (p + 1) 0 = p + 1 := by
    rw [List.getD_eq_getElem _ _ hlen, List.getElem_range]
  rw [hidx, if_neg]
  rintro ⟨-, h2⟩
  have hmin : min row.length (p + n_nbh) ≤ p + n_nbh := Nat.min_le_right _ _
  have : n_nbh = 1 := rfl
  omega

/-- Witness for the universally quantified part of
`mask_keeps_only_left_neighbor_and_peak`: bin `peak+1 = 2` of the row
`[1, 5, 2]` is inside the valid range yet zeroed. -/
theorem mask_keeps_only_left_neighbor_and_peak_witness :
    (maskRow [1, 5, 2] 1).getD 2 0 = 0 :=
  mask_keeps_only_left_neighbor_and_peak.2.2 [1, 5, 2] 1 (by decide)

/-- C2 (confirmed): `_check_feasibility` returns `True` exactly when the
smallest positive frequency is ≤ 50/60 Hz and the largest is ≥ 100/60 Hz
(`specFeasible`), and whenever the axis is infeasible the estimator
surfaces an error (the explicit `ValueError` on an `ok false`, or the
`IndexError` crash when no positive frequency exists) instead of
returning an estimate. -/
theorem feasibility_characterization :
    (∀ freqs : List ℚ, _check_feasibility freqs = .ok true ↔ specFeasible freqs) ∧
    ∀ (freqs : List ℚ) (psd sig : List (List ℚ)) (fs : ℚ) (band : Option (List ℚ))
      (mode : String), ¬ specFeasible freqs →
      ∃ e, spectral_heart_rate (fun _ _ => (freqs, psd)) sig fs band "lead_first" mode
        = .error e := by
  refine ⟨check_feasibility_ok_true_iff, ?_⟩
  intro freqs psd sig fs band mode hspec
  rw [shr_lead_first]
  cases hcf : _check_feasibility freqs with
  | error e =>
    rw [meanFreq_feas_error freqs psd band e hcf]
    exact ⟨e, rfl⟩
  | ok b =>
    cases b with
    | true => exact absurd ((check_feasibility_ok_true_iff freqs).mp hcf) hspec
    | false =>
      rw [meanFreq_infeasible freqs psd band hcf]
      exact ⟨_, rfl⟩

/-- Witness for `feasibility_characterization`: the axis `[0, 1/2, 1, 2]`
is feasible, and on the infeasible axis `[1, 3/2]` (largest < 100/60) the
estimator errors. -/
theorem feasibility_characterization_witness :
    _check_feasibility [0, 1/2, 1, 2] = .ok true ∧
    ∃ e, spectral_heart_rate (fun _ _ => ([1, 3/2], [[1, 2]])) [[0]] 1 none "lead_first" "hr"
      = .error e :=
  ⟨(feasibility_characterization.1 [0, 1/2, 1, 2]).mpr (by with_unfolding_all decide),
   feasibility_characterization.2 [1, 3/2] [[1, 2]] [[0]] 1 none "hr" (by with_unfolding_all decide)⟩

/-- C9 (confirmed): `argmaxFirst` (the embedding of `np.argmax` used for
`peak_inds`) returns the index of a maximal entry such that every earlier
entry is strictly smaller — i.e. ties resolve to the first
(lowest-frequency) maximal index — it is defined on every non-empty row,
and the estimator is a pure function, so repeated calls on identical
inputs are identical. -/
theorem argmax_tiebreak_deterministic :
    (∀ (xs : List ℚ) (i : ℕ), argmaxFirst xs = some i →
      i < xs.length ∧ (∀ j, j < xs.length → xs.getD j 0 ≤ xs.getD i 0) ∧
      ∀ j, j < i → xs.getD j 0 < xs.getD i 0) ∧
    (∀ xs : List ℚ, xs ≠ [] → ∃ i, argmaxFirst xs = some i) ∧
    ∀ (estimate_psd : List (List ℚ) → ℚ → List ℚ × List (List ℚ)) (sig : List (List ℚ))
      (fs : ℚ) (band : Option (List ℚ)) (fmt mode : String),
      spectral_heart_rate estimate_psd sig fs band fmt mode
        = spectral_heart_rate estimate_psd sig fs band fmt mode :=
  ⟨argmaxFirst_spec, argmaxFirst_isSome, fun _ _ _ _ _ _ => rfl⟩

/-- Witness for `argmax_tiebreak_deterministic`: on `[1, 3, 3]`, whose two
maxima tie, the first maximal index `1` is selected and satisfies the
characterization. -/
theorem argmax_tiebreak_deterministic_witness :
    argmaxFirst [1, 3, 3] = some 1 ∧
    (1 < ([1, 3, 3] : List ℚ).length ∧
      (∀ j, j < ([1, 3, 3] : List ℚ).length →
        ([1, 3, 3] : List ℚ).getD j 0 ≤ ([1, 3, 3] : List ℚ).getD 1 0) ∧
      ∀ j, j < 1 → ([1, 3, 3] : List ℚ).getD j 0 < ([1, 3, 3] : List ℚ).getD 1 0) :=
  ⟨by with_unfolding_all decide, argmax_tiebreak_deterministic.1 [1, 3, 3] 1 (by with_unfolding_all decide)⟩

/-- C10 (confirmed): `_check_feasibility` is partial at its boundary: it
crashes with `IndexError` (indexing `_f[0]` on an empty array) exactly
when the axis has no strictly positive frequency, and returns a boolean
whenever at least one frequency is strictly positive. -/
theorem feasibility_partial_on_nonpositive :
    ∀ freqs : List ℚ,
      (_check_feasibility freqs = .error .indexError ↔ ∀ x ∈ freqs, x ≤ 0) ∧
      ((∃ x ∈ freqs, 0 < x) → ∃ b, _check_feasibility freqs = .ok b) :=
  fun freqs =>
    ⟨check_feasibility_indexError_iff freqs, check_feasibility_ok_of_pos freqs⟩

/-- Witness for `feasibility_partial_on_nonpositive`: the all-zero axis
`[0]` crashes with `IndexError`; the axis `[2]` returns a boolean. -/
theorem feasibility_partial_on_nonpositive_witness :
    _check_feasibility [0] = .error .indexError ∧
    ∃ b, _check_feasibility [2] = .ok b :=
  ⟨(feasibility_partial_on_nonpositive [0]).1.mpr (by with_unfolding_all decide),
   (feasibility_partial_on_nonpositive [2]).2 ⟨2, by decide, by with_unfolding_all decide⟩⟩

/-- C3 (corrected, counterexample): on a feasible axis with an all-zero
PSD (every masked power sum is zero), the estimator in `rr_interval` mode
does *not* fail with a `DegenerateSpectrumError`: it returns successfully,
with the non-finite value produced by `1000 / nan`. -/
theorem degenerate_rr_counterexample :
    spectral_heart_rate (fun _ _ => ([0, 1/2, 1, 2], [[0, 0, 0, 0]])) [[0]] 1
      (some [1/2, 3/2]) "lead_first" "rr_interval" = .ok none := by
  with_unfolding_all rfl

/-- C3 (corrected, amended): when a masked power row sums to zero the
per-lead centroid is the non-finite `0/0` (`none`), and whenever the
averaged frequency is non-finite, `rr_interval` mode returns that
non-finite value successfully — no error of any kind is raised. -/
theorem degenerate_rr_silent_nonfinite :
    (∀ row fr : List ℚ, row.sum = 0 → leadCentroid row fr = none) ∧
    ∀ (freqs : List ℚ) (psd sig : List (List ℚ)) (fs : ℚ) (band : Option (List ℚ))
      (mode : String), pyLower mode ∈ rrModes → meanFreq freqs psd band = .ok none →
      spectral_heart_rate (fun _ _ => (freqs, psd)) sig fs band "lead_first" mode
        = .ok none := by
  constructor
  · intro row fr h
    unfold leadCentroid
    rw [if_pos h]
  · intro freqs psd sig fs band mode hmode hmf
    rw [shr_lead_first, hmf]
    show Except.ok (applyMode mode none) = Except.ok none
    rw [applyMode_rr hmode]

/-- Witness for `degenerate_rr_silent_nonfinite` at the degenerate input
of the counterexample family. -/
theorem degenerate_rr_silent_nonfinite_witness :
    leadCentroid [0, 0] [1/2, 1] = none ∧
    spectral_heart_rate (fun _ _ => ([0, 1/2, 1, 2], [[0, 0, 0, 0]])) [[1]] 1
      (some [1/2, 3/2]) "lead_first" "rr" = .ok none :=
  ⟨degenerate_rr_silent_nonfinite.1 [0, 0] [1/2, 1] (by with_unfolding_all decide),
   degenerate_rr_silent_nonfinite.2 [0, 1/2, 1, 2] [[0, 0, 0, 0]] [[1]] 1
     (some [1/2, 3/2]) "rr" (by decide) (by with_unfolding_all rfl)⟩

/-- C4 (corrected, counterexample): with the axis `[0, 1/2, 1, 2]` (max
2 Hz) and band `[5, 6]` Hz the restriction is empty; the estimator fails,
but with numpy's `ValueError` raised *by* `np.argmax` on the empty slice —
not with an `EmptyBandError` issued before the computation. -/
theorem empty_band_counterexample :
    spectral_heart_rate (fun _ _ => ([0, 1/2, 1, 2], [[1, 2, 3, 4]])) [[0]] 1
      (some [5, 6]) "lead_first" "hr"
      = .error (.valueError "attempt to get argmax of an empty sequence") ∧
    spectral_heart_rate (fun _ _ => ([0, 1/2, 1, 2], [[1, 2, 3, 4]])) [[0]] 1
      (some [5, 6]) "lead_first" "hr" ≠ .error .emptyBand := by
  have h : spectral_heart_rate (fun _ _ => ([0, 1/2, 1, 2], [[1, 2, 3, 4]])) [[0]] 1
      (some [5, 6]) "lead_first" "hr"
      = .error (.valueError "attempt to get argmax of an empty sequence") := by
    with_unfolding_all rfl
  refine ⟨h, ?_⟩
  rw [h]
  simp

/-- C4 (corrected, amended): whenever the band restriction of the
frequency axis is empty (and the earlier stages pass, with at least one
lead present), the estimator reaches `np.argmax` on the empty slice and
fails there with numpy's `ValueError`; there is no `EmptyBandError` check
before that computation. -/
theorem empty_band_fails_at_argmax :
    ∀ (freqs : List ℚ) (psd sig : List (List ℚ)) (fs : ℚ) (band : Option (List ℚ))
      (mode : String),
      _check_feasibility freqs = .ok true →
      ¬ (resolveBand band).length < 2 →
      indsOfInterest freqs ((sortedBand (resolveBand band)).headD 0)
        ((sortedBand (resolveBand band)).getLastD 0) = [] →
      psd ≠ [] →
      spectral_heart_rate (fun _ _ => (freqs, psd)) sig fs band "lead_first" mode
        = .error (.valueError "attempt to get argmax of an empty sequence") := by
  intro freqs psd sig fs band mode hf hb hinds hpsd
  rw [shr_lead_first, meanFreq_empty_inds freqs psd band hf hb hinds hpsd]

/-- Witness for `empty_band_fails_at_argmax`. -/
theorem empty_band_fails_at_argmax_witness :
    spectral_heart_rate (fun _ _ => ([0, 1/2, 1, 2], [[1, 2, 3, 4]])) [[1]] 1
      (some [5, 6]) "lead_first" "rr"
      = .error (.valueError "attempt to get argmax of an empty sequence") :=
  empty_band_fails_at_argmax [0, 1/2, 1, 2] [[1, 2, 3, 4]] [[1]] 1 (some [5, 6]) "rr"
    (by with_unfolding_all rfl) (by decide) (by with_unfolding_all rfl)
    (by decide)

/-- C5 (corrected, counterexample): the malformed mode string `"bogus"`
does not raise anything — the estimator falls through both mode branches
and returns the raw averaged frequency (5/6 Hz) as a numeric result. -/
theorem invalid_mode_counterexample :
    spectral_heart_rate (fun _ _ => ([0, 1/2, 1, 2], [[0, 1, 2, 1]])) [[0]] 1
      (some [1/2, 3/2]) "lead_first" "bogus" = .ok (some (5/6)) := by
  with_unfolding_all rfl

/-- C5 (corrected, amended): only the layout tag is validated at entry
(`AssertionError` before any computation).  A band with fewer than two
(resolved) bounds triggers its `AssertionError` only *after* the PSD and
feasibility stages — an infeasible axis errors first even when the band is
short.  A malformed mode string is never detected: the estimator returns
the raw averaged frequency unchanged.  An *empty* supplied band is not
rejected at all: Python's `or` silently replaces it by the configured
default. -/
theorem argument_validation_incomplete :
    (∀ (estimate_psd : List (List ℚ) → ℚ → List ℚ × List (List ℚ)) (sig : List (List ℚ))
      (fs : ℚ) (band : Option (List ℚ)) (fmt mode : String), pyLower fmt ∉ validFmts →
      spectral_heart_rate estimate_psd sig fs band fmt mode = .error (.assertionError "")) ∧
    (∀ (freqs : List ℚ) (psd sig : List (List ℚ)) (fs : ℚ) (band : Option (List ℚ))
      (mode : String), pyLower mode ∉ hrModes → pyLower mode ∉ rrModes →
      spectral_heart_rate (fun _ _ => (freqs, psd)) sig fs band "lead_first" mode
        = meanFreq freqs psd band) ∧
    (∀ (freqs : List ℚ) (psd sig : List (List ℚ)) (fs : ℚ) (band : Option (List ℚ))
      (mode : String), _check_feasibility freqs = .ok true → (resolveBand band).length < 2 →
      spectral_heart_rate (fun _ _ => (freqs, psd)) sig fs band "lead_first" mode
        = .error (.assertionError "frequency band of heart rate should at least has 2 bounds")) ∧
    (∀ (freqs : List ℚ) (psd sig : List (List ℚ)) (fs : ℚ) (band : Option (List ℚ))
      (mode : String), _check_feasibility freqs = .ok false →
      spectral_heart_rate (fun _ _ => (freqs, psd)) sig fs band "lead_first" mode
        = .error (.valueError "it is not feasible to compute heart rate in frequency domain")) ∧
    ∀ (estimate_psd : List (List ℚ) → ℚ → List ℚ × List (List ℚ)) (sig : List (List ℚ))
      (fs : ℚ) (fmt mode : String),
      spectral_heart_rate estimate_psd sig fs (some []) fmt mode
        = spectral_heart_rate estimate_psd sig fs none fmt mode := by
  refine ⟨?_, ?_, ?_, ?_, ?_⟩
  · intro epsd sig fs band fmt mode hfmt
    exact shr_invalid_fmt epsd sig fs band fmt mode hfmt
  · intro freqs psd sig fs band mode h1 h2
    rw [shr_lead_first]
    cases hmf : meanFreq freqs psd band with
    | error e => rfl
    | ok v =>
      show Except.ok (applyMode mode v) = Except.ok v
      rw [applyMode_other h1 h2]
  · intro freqs psd sig fs band mode hf hb
    rw [shr_lead_first, meanFreq_short_band freqs psd band hf hb]
  · intro freqs psd sig fs band mode hf
    rw [shr_lead_first, meanFreq_infeasible freqs psd band hf]
  · intro epsd sig fs fmt mode
    rfl

/-- Witness for `argument_validation_incomplete`: each conjunct instantiated
at a concrete input. -/
theorem argument_validation_incomplete_witness :
    spectral_heart_rate (fun _ _ => ([0, 1/2, 1, 2], [[0, 1, 2, 1]])) [[0]] 1
      (some [1/2, 3/2]) "weird_layout" "hr" = .error (.assertionError "") ∧
    spectral_heart_rate (fun _ _ => ([0, 1/2, 1, 2], [[0, 1, 2, 1]])) [[2]] 1
      (some [1/2, 3/2]) "lead_first" "bpm" = meanFreq [0, 1/2, 1, 2] [[0, 1, 2, 1]] (some [1/2, 3/2]) ∧
    spectral_heart_rate (fun _ _ => ([0, 1/2, 1, 2], [[1]])) [[0]] 1
      (some [7]) "lead_first" "hr"
      = .error (.assertionError "frequency band of heart rate should at least has 2 bounds") ∧
    spectral_heart_rate (fun _ _ => ([1, 3/2], [[1, 2]])) [[0]] 1 none "lead_first" "hr"
      = .error (.valueError "it is not feasible to compute heart rate in frequency domain") ∧
    spectral_heart_rate (fun _ _ => ([0, 1/2, 1, 2], [[0, 1, 2, 1]])) [[0]] 1
      (some []) "lead_first" "hr"
      = spectral_heart_rate (fun _ _ => ([0, 1/2, 1, 2], [[0, 1, 2, 1]])) [[0]] 1
        none "lead_first" "hr" :=
  ⟨argument_validation_incomplete.1 _ [[0]] 1 (some [1/2, 3/2]) "weird_layout" "hr" (by decide),
   argument_validation_incomplete.2.1 [0, 1/2, 1, 2] [[0, 1, 2, 1]] [[2]] 1 (some [1/2, 3/2]) "bpm"
     (by decide) (by decide),
   argument_validation_incomplete.2.2.1 [0, 1/2, 1, 2] [[1]] [[0]] 1 (some [7]) "hr"
     (by with_unfolding_all rfl) (by decide),
   argument_validation_incomplete.2.2.2.1 [1, 3/2] [[1, 2]] [[0]] 1 none "hr"
     (by with_unfolding_all rfl),
   argument_validation_incomplete.2.2.2.2 _ [[0]] 1 "lead_first" "hr"⟩

/-- C6 (confirmed): only the minimum and maximum of the supplied band
bounds (the first and last elements of the sorted band) affect the
estimator; two bands of length ≥ 2 with the same sorted extremes give
identical behaviour for every PSD estimator, signal, fs, layout and mode. -/
theorem band_min_max_only :
    ∀ (estimate_psd : List (List ℚ) → ℚ → List ℚ × List (List ℚ)) (sig : List (List ℚ))
      (fs : ℚ) (fmt mode : String) (b b' : List ℚ),
      2 ≤ b.length → 2 ≤ b'.length →
      (sortedBand b).headD 0 = (sortedBand b').headD 0 →
      (sortedBand b).getLastD 0 = (sortedBand b').getLastD 0 →
      spectral_heart_rate estimate_psd sig fs (some b) fmt mode
        = spectral_heart_rate estimate_psd sig fs (some b') fmt mode := by
  intro epsd sig fs fmt mode b b' hb hb' hlo hhi
  by_cases hfmt : pyLower fmt ∈ validFmts
  · rw [shr_valid_fmt _ _ _ _ _ _ hfmt, shr_valid_fmt _ _ _ _ _ _ hfmt,
      meanFreq_band_congr _ _ b b' hb hb' hlo hhi]
  · rw [shr_invalid_fmt _ _ _ _ _ _ hfmt, shr_invalid_fmt _ _ _ _ _ _ hfmt]

/-- Witness for `band_min_max_only`: the spec's own example — band
`[0.8, 1.5, 1.2]` behaves exactly like `[0.8, 1.5]`. -/
theorem band_min_max_only_witness :
    spectral_heart_rate (fun _ _ => ([0, 1/2, 1, 2], [[0, 1, 2, 1]])) [[0]] 1
      (some [4/5, 3/2, 6/5]) "lead_first" "hr"
      = spectral_heart_rate (fun _ _ => ([0, 1/2, 1, 2], [[0, 1, 2, 1]])) [[0]] 1
        (some [4/5, 3/2]) "lead_first" "hr" :=
  band_min_max_only _ [[0]] 1 "lead_first" "hr" [4/5, 3/2, 6/5] [4/5, 3/2]
    (by decide) (by decide) (by with_unfolding_all decide) (by with_unfolding_all decide)

/-- C7 (confirmed): whenever a heart-rate-mode call and an rr-mode call on
the same inputs both return finite values `h` and `r`, then
`r = 60000 / h`: both derive from the same averaged centroid frequency `f`
as `h = 60 f` and `r = 1000 / f`. -/
theorem rr_hr_round_trip :
    ∀ (estimate_psd : List (List ℚ) → ℚ → List ℚ × List (List ℚ)) (sig : List (List ℚ))
      (fs : ℚ) (band : Option (List ℚ)) (fmt mh mr : String) (h r : ℚ),
      pyLower mh ∈ hrModes → pyLower mr ∈ rrModes →
      spectral_heart_rate estimate_psd sig fs band fmt mh = .ok (some h) →
      spectral_heart_rate estimate_psd sig fs band fmt mr = .ok (some r) →
      r = 60000 / h := by
  intro epsd sig fs band fmt mh mr h r hmh hmr hh hr2
  by_cases hfmt : pyLower fmt ∈ validFmts
  · rw [shr_valid_fmt _ _ _ _ _ _ hfmt] at hh hr2
    cases hmf : meanFreq (epsd (if pyLower fmt ∈ lastFmts then npTranspose sig else sig) fs).1
        (epsd (if pyLower fmt ∈ lastFmts then npTranspose sig else sig) fs).2 band with
    | error e =>
      rw [hmf] at hh
      exact absurd hh (by simp)
    | ok v =>
      rw [hmf] at hh hr2
      replace hh : applyMode mh v = some h := by
        have := hh
        simpa using this
      replace hr2 : applyMode mr v = some r := by
        have := hr2
        simpa using this
      rw [applyMode_hr hmh] at hh
      cases v with
      | none => simp at hh
      | some x =>
        simp only [Option.map_some', Option.some.injEq] at hh
        rw [applyMode_rr hmr] at hr2
        by_cases hx : x = 0
        · rw [show (match (some x : Option ℚ) with
              | none => none
              | some y => if y = 0 then none else some (1000 / y)) = if x = 0 then none else some (1000 / x) from rfl,
            if_pos hx] at hr2
          exact absurd hr2 (by simp)
        · rw [show (match (some x : Option ℚ) with
              | none => none
              | some y => if y = 0 then none else some (1000 / y)) = if x = 0 then none else some (1000 / x) from rfl,
            if_neg hx, Option.some.injEq] at hr2
          rw [← hr2, ← hh]
          rw [show (60000 : ℚ) = 60 * 1000 from by norm_num,
            mul_div_mul_left _ _ (by norm_num : (60 : ℚ) ≠ 0)]
  · rw [shr_invalid_fmt _ _ _ _ _ _ hfmt] at hh
    exact absurd hh (by simp)

/-- Witness for `rr_hr_round_trip`: on the worked example the heart rate
is 50 bpm, the rr interval 1200 ms, and `1200 = 60000 / 50`. -/
theorem rr_hr_round_trip_witness :
    spectral_heart_rate (fun _ _ => ([0, 1/2, 1, 2], [[0, 1, 2, 1]])) [[0]] 1
      (some [1/2, 3/2]) "lead_first" "hr" = .ok (some 50) ∧
    spectral_heart_rate (fun _ _ => ([0, 1/2, 1, 2], [[0, 1, 2, 1]])) [[0]] 1
      (some [1/2, 3/2]) "lead_first" "rr" = .ok (some 1200) ∧
    (1200 : ℚ) = 60000 / 50 :=
  ⟨by with_unfolding_all rfl, by with_unfolding_all rfl,
   rr_hr_round_trip (fun _ _ => ([0, 1/2, 1, 2], [[0, 1, 2, 1]])) [[0]] 1
     (some [1/2, 3/2]) "lead_first" "hr" "rr" 50 1200 (by decide) (by decide)
     (by with_unfolding_all rfl) (by with_unfolding_all rfl)⟩

/-- C8 (confirmed): for every rectangular signal (each lead the same
positive number of samples, per the data model of §3), calling the
estimator on the transposed signal with the `lead_last` tag gives exactly
the result of the original lead-first call: the estimator normalizes to
lead-first by transposing back, and the rest of the computation is
identical. -/
theorem layout_invariance :
    ∀ (estimate_psd : List (List ℚ) → ℚ → List ℚ × List (List ℚ)) (sig : List (List ℚ))
      (fs : ℚ) (band : Option (List ℚ)) (mode : String) (n : ℕ),
      0 < n → (∀ row ∈ sig, row.length = n) →
      spectral_heart_rate estimate_psd (npTranspose sig) fs band "lead_last" mode
        = spectral_heart_rate estimate_psd sig fs band "lead_first" mode := by
  intro epsd sig fs band mode n hn hrows
  rw [shr_valid_fmt _ _ _ _ _ _ (by decide), shr_valid_fmt _ _ _ _ _ _ (by decide)]
  rw [if_pos (by decide : pyLower "lead_last" ∈ lastFmts),
    if_neg (by decide : ¬ pyLower "lead_first" ∈ lastFmts)]
  rw [npTranspose_involution sig n hn hrows]

/-- Witness for `layout_invariance`, with a PSD estimator that genuinely
depends on its signal argument. -/
theorem layout_invariance_witness :
    spectral_heart_rate (fun s _ => (s.headD [], s)) (npTranspose [[1, 2], [3, 4]]) 1
      none "lead_last" "hr"
      = spectral_heart_rate (fun s _ => (s.headD [], s)) [[1, 2], [3, 4]] 1
        none "lead_first" "hr" :=
  layout_invariance (fun s _ => (s.headD [], s)) [[1, 2], [3, 4]] 1 none "hr" 2
    (by decide) (by decide)

end EcgSpectral
